import Mathlib

/-!
Verification of the `cachers` asynchronous lookup broker
(response state machine, request token, register-or-deliver bind
protocol, database façade).

The repository ships the C declarations (`src/cachers.h`), the C++
coroutine wrapper (`src/cachers.hpp`) and a demo driver
(`src/main.cpp`).  The C implementation of the broker itself
(`cachers_open`, `cachers_get`, `cachers_response_get_or_bind`,
the token and its resolution) is not part of the sources, so those
operations are modelled from the specification; their doc comments
say so explicitly.  Everything taken from `cachers.hpp`
(`unique_handle`, the awaiter, the `database::get` overloads) is
embedded directly from the source.

Byte buffers (`const void * + size_t`) are modelled as `List Nat`
(one `Nat` per byte); a null pointer is `Option.none`.  Raw function
pointers plus opaque `void*` contexts are modelled as opaque
callback identifiers (`Nat`): the broker never inspects them, it
only stores and later invokes them.
-/

namespace Cachers

/-- The C enumeration `cachers_state` from `src/cachers.h`. -/
inductive cachers_state
  | none
  | complete
  | in_progress
  | error
deriving DecidableEq

/-- The C enumeration `cachers_err` from `src/cachers.h`. -/
inductive cachers_err
  | ok
  | not_implemented
  | invalid_argument
  | empty
  | has_data
deriving DecidableEq

/-- Terminal response states (spec §3): `None`, `Complete`, `Error`;
the single non-terminal state is `InProgress`. -/
def terminal (s : cachers_state) : Bool :=
  s ≠ cachers_state.in_progress

/-- The C structure `cachers_response` from `src/cachers.h`.  `token` is an
opaque token identifier (null pointer = `Option.none`); `header` and
`data` are the pointer+size pairs, absent when the pointer is null. -/
structure cachers_response where
  token : Option Nat
  error_code : cachers_err
  header : Option (List Nat)
  data_state : cachers_state
  data : Option (List Nat)
deriving DecidableEq

/-- The §3 Response invariant: `state = Complete` iff data present,
`state = Error` iff error present and data absent, `state = None`
implies header and data absent. -/
def responseInvariant (r : cachers_response) : Prop :=
  (r.data_state = cachers_state.complete ↔ r.data.isSome) ∧
  (r.data_state = cachers_state.error ↔
    (r.error_code ≠ cachers_err.ok ∧ r.data = Option.none)) ∧
  (r.data_state = cachers_state.none →
    r.header = Option.none ∧ r.data = Option.none)

instance (r : cachers_response) : Decidable (responseInvariant r) := by
  unfold responseInvariant
  infer_instance

/-- Modelled from the spec: the terminal "never arriving" Response
(§3, state `None`, no header, no data, no error, no token). -/
def mkNone : cachers_response :=
  ⟨Option.none, cachers_err.ok, Option.none, cachers_state.none, Option.none⟩

/-- Modelled from the spec: a terminal `Complete` Response carrying
`data` (and an optional header), produced by the backend (§3). -/
def mkComplete (hdr : Option (List Nat)) (d : List Nat) : cachers_response :=
  ⟨Option.none, cachers_err.ok, hdr, cachers_state.complete, some d⟩

/-- Modelled from the spec: a terminal `Error` Response carrying an
error code and no data (§3, §7). -/
def mkError (e : cachers_err) : cachers_response :=
  ⟨Option.none, e, Option.none, cachers_state.error, Option.none⟩

/-- Modelled from the spec: the `InProgress` Response produced by
`cachers_get` when the backend must perform work; it carries the
freshly created token (§4.4). -/
def mkInProgress (tid : Nat) : cachers_response :=
  ⟨some tid, cachers_err.ok, Option.none, cachers_state.in_progress, Option.none⟩

/-- Modelled from the spec: the initial Response slot of a freshly
created token: state `InProgress`, nothing else (§4.2 `create`). -/
def response_in_progress : cachers_response :=
  ⟨Option.none, cachers_err.ok, Option.none, cachers_state.in_progress, Option.none⟩

/-- Modelled from the spec: `struct cachers_response_token`
(`RequestToken`, §3/§4.2; the C implementation is not under `src/`):
a resolved flag, a mutable current Response slot, the pending
continuation list (opaque callback identifiers) and a reference
count. -/
structure token_state where
  resolved : Bool
  response : cachers_response
  continuations : List Nat
  refcount : Nat
deriving DecidableEq

/-- Modelled from the spec: token `create` (§4.2): initial response
state is `InProgress`, continuation list empty, reference count 1. -/
def token_create : token_state :=
  ⟨false, response_in_progress, [], 1⟩

/-- Modelled from the spec: `resolve(token, response)` (§4.2):
if the token is already resolved the call is rejected as the
`HasData`/already-resolved fault and changes nothing; otherwise it
stores the response, marks the token resolved, drains the
continuation list and invokes every stored callback with the final
response.  The result is the returned error code, the new token
state, and the list of callback invocations (callback id, response)
performed by the call. -/
def resolve (t : token_state) (r : cachers_response) :
    cachers_err × token_state × List (Nat × cachers_response) :=
  if t.resolved then
    (cachers_err.has_data, t, [])
  else
    (cachers_err.ok,
     { t with resolved := true, response := r, continuations := [] },
     t.continuations.map (fun c => (c, r)))

/-- Modelled from the spec: `cachers_response_get_or_bind`
(declared in `src/cachers.h`; §4.3 with the §7 error-code mapping):
a null token or null callback is the `InvalidArgument` fault; on an
already-resolved token it returns `CACHERS_ERR_HAS_DATA` and writes
the current response to `maybe_out` without touching the
continuation list; otherwise it appends the callback to the
continuation list and returns `CACHERS_ERR_OK` (Registered).  The
result is (error code, token state after the call, the response
written to `maybe_out` if any). -/
def cachers_response_get_or_bind (t : Option token_state) (callback : Option Nat) :
    cachers_err × Option token_state × Option cachers_response :=
  match t, callback with
  | Option.none, _ => (cachers_err.invalid_argument, t, Option.none)
  | some _, Option.none => (cachers_err.invalid_argument, t, Option.none)
  | some tok, some cb =>
    if tok.resolved then
      (cachers_err.has_data, some tok, some tok.response)
    else
      (cachers_err.ok,
       some { tok with continuations := tok.continuations ++ [cb] },
       Option.none)

/-- Modelled from the spec: the non-registering `peek(token)` read
(§4.3): returns the current response without ever appending a
continuation. -/
def peek (t : token_state) : cachers_response :=
  t.response

/-!
## Interleavings of `resolve` and `get_or_bind` on one token

The spec requires (§4.3, §5) that the check-and-register decision of
`get_or_bind` and the store-and-drain of `resolve` each execute under
one exclusive critical section per token, so a concurrent history is
exactly a sequence (an interleaving) of these atomic operations.  We
run an arbitrary interleaving over a token and record the observable
events: what each `get_or_bind` call returned and each callback
invocation performed by `resolve`.  Each `get_or_bind` caller is
identified by its (opaque) callback id.
-/

/-- One atomic operation of an interleaving on a single token. -/
inductive Op
  | bind (cid : Nat)
  | resolveCall (r : cachers_response)
deriving DecidableEq

/-- Observable events of an interleaving: return values of the calls
and callback invocations. -/
inductive Event
  | registered (cid : Nat)
  | delivered (cid : Nat) (r : cachers_response)
  | invoked (cid : Nat) (r : cachers_response)
  | bindFault (cid : Nat) (e : cachers_err)
  | resolveFault (e : cachers_err)
deriving DecidableEq

/-- Execute one atomic operation via the modelled broker calls,
producing the new token state and the events it emitted. -/
def stepOp (t : token_state) (op : Op) : token_state × List Event :=
  match op with
  | Op.bind cid =>
    match cachers_response_get_or_bind (some t) (some cid) with
    | (cachers_err.has_data, t1, out) =>
      (t1.getD t, [Event.delivered cid (out.getD t.response)])
    | (cachers_err.ok, t1, _) => (t1.getD t, [Event.registered cid])
    | (e, t1, _) => (t1.getD t, [Event.bindFault cid e])
  | Op.resolveCall r =>
    match resolve t r with
    | (cachers_err.ok, t1, invs) =>
      (t1, invs.map (fun p => Event.invoked p.1 p.2))
    | (e, t1, _) => (t1, [Event.resolveFault e])

/-- Run an interleaving from a token state, collecting all events in
order. -/
def runOps (t : token_state) : List Op → token_state × List Event
  | [] => (t, [])
  | op :: ops =>
    let s := stepOp t op
    let s2 := runOps s.1 ops
    (s2.1, s.2 ++ s2.2)

/-!
## Embeddings from `src/cachers.hpp`
-/

/-- Embedded from source: `awaiter::await_ready` in `src/cachers.hpp`:
`_target._impl.data_state != CACHERS_STATE_IN_PROGRESS`. -/
def await_ready (r : cachers_response) : Bool :=
  r.data_state ≠ cachers_state.in_progress

/-- Embedded from source: `awaiter::await_suspend` in `src/cachers.hpp`: calls
`cachers_response_get_or_bind` on the response token with the
resume-lambda as callback (`cb` is the opaque id of that lambda and
its awaiter context); if the call returns `CACHERS_ERR_HAS_DATA` the
awaiter resumes immediately (the delivered response was written into
`_target._impl`).  Result: the token state after the call, the
`_impl` slot after the call, and `true` iff the coroutine was
resumed synchronously. -/
def await_suspend (t : Option token_state) (cb : Nat) (impl : cachers_response) :
    Option token_state × cachers_response × Bool :=
  match cachers_response_get_or_bind t (some cb) with
  | (rc, t1, out) =>
    if rc = cachers_err.has_data then (t1, out.getD impl, true)
    else (t1, impl, false)

/-- Embedded from source: `detail::unique_handle` in `src/cachers.hpp`: the held raw
pointer, null modelled as `Option.none`. -/
structure unique_handle where
  handle : Option Nat
deriving DecidableEq

/-- A heap of `unique_handle`s (indexed by position of creation)
together with the pointers passed to `FDestroyHandle` so far, in
order. -/
structure HandleHeap where
  handles : List unique_handle
  destroyed : List Nat
deriving DecidableEq

/-- Operations on `unique_handle`s, acting on a heap of handles:
`acquire p` constructs a new handle holding `p` (the `ptr<T>`
constructor); `moveCtor i` move-constructs a new handle from handle
`i`; `moveAssign i j` move-assigns handle `j` into handle `i`;
`release i` and `reset i` are the member functions of handle `i`
(the destructor of `unique_handle` behaves as `reset`, which is how
`response::_token` and `database::_impl` destroy their handles). -/
inductive HOp
  | acquire (p : Nat)
  | moveCtor (i : Nat)
  | moveAssign (i j : Nat)
  | release (i : Nat)
  | reset (i : Nat)
deriving DecidableEq

/-- Read handle `i` of the heap (a default-constructed null handle
when out of range). -/
def getHandle (s : HandleHeap) (i : Nat) : unique_handle :=
  s.handles.getD i ⟨Option.none⟩

/-- Embedded from source: `unique_handle::reset` in `src/cachers.hpp` applied to handle
`i`: `if (auto handle = release()) FDestroyHandle(handle);` —
relinquish the pointer and destroy it only when non-null. -/
def heapReset (s : HandleHeap) (i : Nat) : HandleHeap :=
  match (getHandle s i).handle with
  | Option.none => { s with handles := s.handles.set i ⟨Option.none⟩ }
  | some p =>
    { handles := s.handles.set i ⟨Option.none⟩,
      destroyed := s.destroyed ++ [p] }

/-- Execute one `unique_handle` operation on the heap, exactly as
the member functions of `src/cachers.hpp` do. -/
def stepH (s : HandleHeap) (op : HOp) : HandleHeap :=
  match op with
  | HOp.acquire p => { s with handles := s.handles ++ [⟨some p⟩] }
  | HOp.moveCtor i =>
    let v := getHandle s i
    { s with handles := s.handles.set i ⟨Option.none⟩ ++ [v] }
  | HOp.moveAssign i j =>
    let s1 := heapReset s i
    let v := getHandle s1 j
    { s1 with handles := (s1.handles.set j ⟨Option.none⟩).set i v }
  | HOp.release i => { s with handles := s.handles.set i ⟨Option.none⟩ }
  | HOp.reset i => heapReset s i

/-- Run a sequence of `unique_handle` operations from a heap. -/
def runH (s : HandleHeap) : List HOp → HandleHeap
  | [] => s
  | op :: ops => runH (stepH s op) ops

/-- The pointers a list of operations acquires, in order. -/
def acquiredPtrs : List HOp → List Nat
  | [] => []
  | HOp.acquire p :: ops => p :: acquiredPtrs ops
  | _ :: ops => acquiredPtrs ops

/-- The multiset (as a count) of live copies of pointer `p`: how
many handles of the heap currently hold `p`. -/
def heldCount (s : HandleHeap) (p : Nat) : Nat :=
  (s.handles.filterMap unique_handle.handle).count p

/-!
## Backend model and the database façade
-/

/-- Modelled from the spec: the backend answer to a lookup (§6): it
either already has a final (terminal) Response, or must perform work
(pending). -/
inductive backend_answer
  | final (r : cachers_response)
  | pending
deriving DecidableEq

/-- Modelled from the spec: `cachers_get` (declared in
`src/cachers.h`; §4.4): consult the backend for the key; if it
already has a final answer return that terminal Response (no token);
if it must perform work return an `InProgress` Response carrying the
freshly created token `fresh`. -/
def cachers_get (backend : List Nat → backend_answer) (fresh : Nat)
    (key : List Nat) : cachers_err × cachers_response :=
  match backend key with
  | backend_answer.final r => (cachers_err.ok, r)
  | backend_answer.pending => (cachers_err.ok, mkInProgress fresh)

/-- Embedded from source: `database::get(key_view)` in `src/cachers.hpp`: call
`cachers_get` on the raw bytes of the key; a non-zero error code
becomes `unexpected{err}`, otherwise the response is returned. -/
def database_get (backend : List Nat → backend_answer) (fresh : Nat)
    (key : List Nat) : Except cachers_err cachers_response :=
  match cachers_get backend fresh key with
  | (cachers_err.ok, r) => Except.ok r
  | (e, _) => Except.error e

/-- Embedded from source: `database::get(std::string_view)` in `src/cachers.hpp`:
reinterprets the string bytes as a `key_view` over the identical
byte sequence and delegates to the span overload.  A C++ string is a
sequence of `char`s; its bytes are the character codes. -/
def database_get_string (backend : List Nat → backend_answer) (fresh : Nat)
    (key : List Char) : Except cachers_err cachers_response :=
  database_get backend fresh (key.map Char.toNat)

/-!
## Characterisation lemmas for the bind protocol
-/

lemma get_or_bind_resolved (t : token_state) (cb : Nat) (h : t.resolved = true) :
    cachers_response_get_or_bind (some t) (some cb) =
      (cachers_err.has_data, some t, some t.response) := by
  simp [cachers_response_get_or_bind, h]

lemma get_or_bind_unresolved (t : token_state) (cb : Nat) (h : t.resolved = false) :
    cachers_response_get_or_bind (some t) (some cb) =
      (cachers_err.ok, some { t with continuations := t.continuations ++ [cb] },
       Option.none) := by
  simp [cachers_response_get_or_bind, h]

lemma resolve_unresolved (t : token_state) (r : cachers_response)
    (h : t.resolved = false) :
    resolve t r =
      (cachers_err.ok, { t with resolved := true, response := r, continuations := [] },
       t.continuations.map (fun c => (c, r))) := by
  simp [resolve, h]

lemma resolve_resolved (t : token_state) (r : cachers_response)
    (h : t.resolved = true) :
    resolve t r = (cachers_err.has_data, t, []) := by
  simp [resolve, h]

lemma stepOp_bind_resolved (t : token_state) (cid : Nat) (h : t.resolved = true) :
    stepOp t (Op.bind cid) = (t, [Event.delivered cid t.response]) := by
  simp [stepOp, get_or_bind_resolved t cid h]

lemma stepOp_bind_unresolved (t : token_state) (cid : Nat) (h : t.resolved = false) :
    stepOp t (Op.bind cid) =
      ({ t with continuations := t.continuations ++ [cid] }, [Event.registered cid]) := by
  simp [stepOp, get_or_bind_unresolved t cid h]

lemma stepOp_resolve_unresolved (t : token_state) (r : cachers_response)
    (h : t.resolved = false) :
    stepOp t (Op.resolveCall r) =
      ({ t with resolved := true, response := r, continuations := [] },
       t.continuations.map (fun c => Event.invoked c r)) := by
  simp [stepOp, resolve_unresolved t r h, List.map_map, Function.comp]

lemma stepOp_resolve_resolved (t : token_state) (r : cachers_response)
    (h : t.resolved = true) :
    stepOp t (Op.resolveCall r) = (t, [Event.resolveFault cachers_err.has_data]) := by
  simp [stepOp, resolve_resolved t r h]

lemma runOps_cons (t : token_state) (op : Op) (ops : List Op) :
    runOps t (op :: ops) =
      ((runOps (stepOp t op).1 ops).1,
       (stepOp t op).2 ++ (runOps (stepOp t op).1 ops).2) := rfl

lemma runOps_append (t : token_state) (l1 l2 : List Op) :
    runOps t (l1 ++ l2) =
      ((runOps (runOps t l1).1 l2).1,
       (runOps t l1).2 ++ (runOps (runOps t l1).1 l2).2) := by
  induction l1 generalizing t with
  | nil => simp [runOps]
  | cons op ops ih =>
    simp [runOps_cons, ih, List.append_assoc]

lemma runOps_binds_unresolved (t : token_state) (h : t.resolved = false)
    (cs : List Nat) :
    runOps t (cs.map Op.bind) =
      ({ t with continuations := t.continuations ++ cs }, cs.map Event.registered) := by
  induction cs generalizing t with
  | nil => simp [runOps]
  | cons c cs ih =>
    rw [List.map_cons, runOps_cons, stepOp_bind_unresolved t c h]
    rw [ih { t with continuations := t.continuations ++ [c] } h]
    simp

lemma runOps_binds_resolved (t : token_state) (h : t.resolved = true)
    (cs : List Nat) :
    runOps t (cs.map Op.bind) =
      (t, cs.map (fun c => Event.delivered c t.response)) := by
  induction cs with
  | nil => simp [runOps]
  | cons c cs ih =>
    rw [List.map_cons, runOps_cons, stepOp_bind_resolved t c h]
    rw [ih]
    simp

/-- The full characterisation of any interleaving consisting of
registrations before the resolution, exactly one `resolve`, and
registrations after it, starting from a fresh token. -/
lemma runOps_interleaving (cs1 cs2 : List Nat) (r : cachers_response) :
    runOps token_create (cs1.map Op.bind ++ Op.resolveCall r :: cs2.map Op.bind) =
      (⟨true, r, [], 1⟩,
       cs1.map Event.registered ++
         (cs1.map (fun c => Event.invoked c r) ++
           cs2.map (fun c => Event.delivered c r))) := by
  rw [runOps_append, runOps_binds_unresolved token_create rfl cs1]
  have h1 : ({ token_create with continuations := token_create.continuations ++ cs1 }
      : token_state) = ⟨false, response_in_progress, cs1, 1⟩ := by
    simp [token_create]
  rw [h1, runOps_cons, stepOp_resolve_unresolved _ r rfl]
  rw [runOps_binds_resolved ⟨true, r, [], 1⟩ rfl cs2]

/-!
## Counting machinery for `unique_handle` heaps (for C8)
-/

/-- Count contribution of one optional pointer. -/
def ocnt (o : Option Nat) (p : Nat) : Nat :=
  if o = some p then 1 else 0

lemma count_filterMap_cons (hd : unique_handle) (tl : List unique_handle) (p : Nat) :
    ((hd :: tl).filterMap unique_handle.handle).count p
      = (tl.filterMap unique_handle.handle).count p + ocnt hd.handle p := by
  cases hh : hd.handle with
  | none => simp [List.filterMap_cons, hh, ocnt]
  | some q =>
    simp only [List.filterMap_cons, hh, ocnt, Option.some.injEq]
    rw [List.count_cons]
    by_cases hq : q = p <;> simp [hq]

lemma heldCount_set_none (l : List unique_handle) (i : Nat) (p : Nat) :
    ((l.set i ⟨Option.none⟩).filterMap unique_handle.handle).count p
      + ocnt (l.getD i ⟨Option.none⟩).handle p
      = (l.filterMap unique_handle.handle).count p := by
  induction l generalizing i with
  | nil => simp [ocnt, List.getD]
  | cons hd tl ih =>
    cases i with
    | zero =>
      show (((⟨Option.none⟩ : unique_handle) :: tl).filterMap
          unique_handle.handle).count p + ocnt hd.handle p = _
      rw [count_filterMap_cons, count_filterMap_cons]
      simp [ocnt]
    | succ j =>
      show ((hd :: tl.set j ⟨Option.none⟩).filterMap unique_handle.handle).count p
          + ocnt ((hd :: tl).getD (j + 1) ⟨Option.none⟩).handle p = _
      rw [count_filterMap_cons, count_filterMap_cons]
      have hg : ((hd :: tl).getD (j + 1) ⟨Option.none⟩) = tl.getD j ⟨Option.none⟩ := rfl
      rw [hg]
      have := ih j
      omega

lemma count_filterMap_set_le (l : List unique_handle) (i : Nat)
    (v w : unique_handle) (p : Nat) :
    ((l.set i v).filterMap unique_handle.handle).count p ≤
      ((l.set i w).filterMap unique_handle.handle).count p + ocnt v.handle p := by
  induction l generalizing i with
  | nil => simp
  | cons hd tl ih =>
    cases i with
    | zero =>
      show ((v :: tl).filterMap unique_handle.handle).count p ≤
        ((w :: tl).filterMap unique_handle.handle).count p + ocnt v.handle p
      rw [count_filterMap_cons, count_filterMap_cons]
      omega
    | succ j =>
      show ((hd :: tl.set j v).filterMap unique_handle.handle).count p ≤
        ((hd :: tl.set j w).filterMap unique_handle.handle).count p + ocnt v.handle p
      rw [count_filterMap_cons, count_filterMap_cons]
      have := ih j
      omega

lemma count_filterMap_append_single (l : List unique_handle) (v : unique_handle)
    (p : Nat) :
    ((l ++ [v]).filterMap unique_handle.handle).count p
      = (l.filterMap unique_handle.handle).count p + ocnt v.handle p := by
  rw [List.filterMap_append, List.count_append]
  cases hv : v.handle with
  | none => simp [List.filterMap_cons, hv, ocnt]
  | some q =>
    simp only [List.filterMap_cons, hv, List.filterMap_nil, ocnt, Option.some.injEq]
    simp [List.count_singleton']

lemma getHandle_eq (s : HandleHeap) (i : Nat) :
    getHandle s i = s.handles.getD i ⟨Option.none⟩ := rfl

lemma heapReset_sum (s : HandleHeap) (i : Nat) (p : Nat) :
    heldCount (heapReset s i) p + (heapReset s i).destroyed.count p =
      heldCount s p + s.destroyed.count p := by
  have hset := heldCount_set_none s.handles i p
  rw [← getHandle_eq] at hset
  unfold heapReset
  cases hh : (getHandle s i).handle with
  | none =>
    rw [hh] at hset
    have h0 : ocnt Option.none p = 0 := by simp [ocnt]
    rw [h0] at hset
    simp only [heldCount]
    omega
  | some q =>
    rw [hh] at hset
    have hq : ([q].count p) = ocnt (some q) p := by
      simp [List.count_singleton', ocnt]
    simp only [heldCount, List.count_append]
    omega

lemma acquiredPtrs_cons (op : HOp) (ops : List HOp) :
    acquiredPtrs (op :: ops) = acquiredPtrs [op] ++ acquiredPtrs ops := by
  cases op <;> rfl

lemma runH_cons (s : HandleHeap) (op : HOp) (ops : List HOp) :
    runH s (op :: ops) = runH (stepH s op) ops := rfl

lemma stepH_sum_le (s : HandleHeap) (op : HOp) (p : Nat) :
    heldCount (stepH s op) p + (stepH s op).destroyed.count p ≤
      heldCount s p + s.destroyed.count p + (acquiredPtrs [op]).count p := by
  cases op with
  | acquire q =>
    have hone := count_filterMap_append_single s.handles ⟨some q⟩ p
    have hq : ocnt (⟨some q⟩ : unique_handle).handle p = [q].count p := by
      simp [List.count_singleton', ocnt]
    simp only [stepH, heldCount, acquiredPtrs] at *
    omega
  | moveCtor i =>
    have happ := count_filterMap_append_single (s.handles.set i ⟨Option.none⟩)
      (getHandle s i) p
    have hset := heldCount_set_none s.handles i p
    rw [← getHandle_eq] at hset
    simp only [stepH, heldCount, acquiredPtrs, List.count_nil] at *
    omega
  | moveAssign i j =>
    have hreset := heapReset_sum s i p
    have hle := count_filterMap_set_le ((heapReset s i).handles.set j ⟨Option.none⟩)
      i (getHandle (heapReset s i) j) ⟨Option.none⟩ p
    have hset1 := heldCount_set_none ((heapReset s i).handles.set j ⟨Option.none⟩) i p
    have hset2 := heldCount_set_none (heapReset s i).handles j p
    rw [← getHandle_eq] at hset2
    simp only [stepH, heldCount, acquiredPtrs, List.count_nil, getHandle_eq] at *
    omega
  | release i =>
    have hset := heldCount_set_none s.handles i p
    simp only [stepH, heldCount, acquiredPtrs, List.count_nil] at *
    omega
  | reset i =>
    have := heapReset_sum s i p
    simp only [stepH, acquiredPtrs, List.count_nil] at *
    omega

lemma runH_sum_le (ops : List HOp) (s : HandleHeap)
    (h : ∀ p, heldCount s p + s.destroyed.count p +
      (acquiredPtrs ops).count p ≤ 1) :
    ∀ p, heldCount (runH s ops) p + (runH s ops).destroyed.count p ≤ 1 := by
  induction ops generalizing s with
  | nil =>
    intro p
    have := h p
    simpa [runH, acquiredPtrs] using this
  | cons op ops ih =>
    rw [runH_cons]
    apply ih
    intro p
    have hstep := stepH_sum_le s op p
    have hh := h p
    rw [acquiredPtrs_cons, List.count_append] at hh
    omega

lemma getD_set_self (l : List unique_handle) (i : Nat) (v d : unique_handle)
    (h : i < l.length) : (l.set i v).getD i d = v := by
  induction l generalizing i with
  | nil => simp at h
  | cons hd tl ih =>
    cases i with
    | zero => rfl
    | succ m =>
      show (tl.set m v).getD m d = v
      exact ih m (by simpa using h)

lemma getD_set_ne (l : List unique_handle) (i j : Nat) (v d : unique_handle)
    (h : i ≠ j) : (l.set i v).getD j d = l.getD j d := by
  induction l generalizing i j with
  | nil => rfl
  | cons hd tl ih =>
    cases i with
    | zero =>
      cases j with
      | zero => exact absurd rfl h
      | succ n => rfl
    | succ m =>
      cases j with
      | zero => rfl
      | succ n =>
        show (tl.set m v).getD n d = tl.getD n d
        exact ih m n (fun hc => h (by rw [hc]))

lemma getD_append_length (l : List unique_handle) (v d : unique_handle) :
    (l ++ [v]).getD l.length d = v := by
  induction l with
  | nil => rfl
  | cons hd tl ih =>
    show (tl ++ [v]).getD tl.length d = v
    exact ih

lemma getD_append_left (l l2 : List unique_handle) (i : Nat) (d : unique_handle)
    (h : i < l.length) : (l ++ l2).getD i d = l.getD i d := by
  induction l generalizing i with
  | nil => simp at h
  | cons hd tl ih =>
    cases i with
    | zero => rfl
    | succ m =>
      show (tl ++ l2).getD m d = tl.getD m d
      exact ih m (by simpa using h)

lemma heapReset_destroyed (s : HandleHeap) (i : Nat) :
    (heapReset s i).destroyed = s.destroyed ++ (getHandle s i).handle.toList := by
  unfold heapReset
  cases hh : (getHandle s i).handle <;> simp [hh, Option.toList]

lemma heapReset_handles (s : HandleHeap) (i : Nat) :
    (heapReset s i).handles = s.handles.set i ⟨Option.none⟩ := by
  unfold heapReset
  cases hh : (getHandle s i).handle <;> rfl

/-!
## Response-invariant machinery (for C5)
-/

/-- The responses carried by one observable event satisfy the §3
Response invariant (trivially true for events without a response). -/
def eventRespOk : Event → Prop
  | Event.delivered _ r => responseInvariant r
  | Event.invoked _ r => responseInvariant r
  | _ => True

instance (ev : Event) : Decidable (eventRespOk ev) := by
  cases ev <;> unfold eventRespOk <;> infer_instance

/-- The response an operation feeds into the system (the `resolve`
payload) satisfies the §3 Response invariant. -/
def opRespOk : Op → Prop
  | Op.resolveCall r => responseInvariant r
  | _ => True

instance (op : Op) : Decidable (opRespOk op) := by
  cases op <;> unfold opRespOk <;> infer_instance

lemma stepOp_respOk (t : token_state) (op : Op)
    (ht : responseInvariant t.response) (hop : opRespOk op) :
    responseInvariant (stepOp t op).1.response ∧
      ∀ ev ∈ (stepOp t op).2, eventRespOk ev := by
  cases op with
  | bind cid =>
    cases h : t.resolved
    · rw [stepOp_bind_unresolved t cid h]
      refine ⟨ht, ?_⟩
      intro ev hev
      simp only [List.mem_singleton] at hev
      subst hev
      trivial
    · rw [stepOp_bind_resolved t cid h]
      refine ⟨ht, ?_⟩
      intro ev hev
      simp only [List.mem_singleton] at hev
      subst hev
      exact ht
  | resolveCall r =>
    have hr : responseInvariant r := hop
    cases h : t.resolved
    · rw [stepOp_resolve_unresolved t r h]
      refine ⟨hr, ?_⟩
      intro ev hev
      simp only [List.mem_map] at hev
      obtain ⟨c, _, hc⟩ := hev
      subst hc
      exact hr
    · rw [stepOp_resolve_resolved t r h]
      refine ⟨ht, ?_⟩
      intro ev hev
      simp only [List.mem_singleton] at hev
      subst hev
      trivial

lemma runOps_respOk (ops : List Op) (t : token_state)
    (ht : responseInvariant t.response) (hops : ∀ op ∈ ops, opRespOk op) :
    responseInvariant (runOps t ops).1.response ∧
      ∀ ev ∈ (runOps t ops).2, eventRespOk ev := by
  induction ops generalizing t with
  | nil => exact ⟨ht, by intro ev hev; simp [runOps] at hev⟩
  | cons op ops ih =>
    have hstep := stepOp_respOk t op ht (hops op (List.mem_cons_self op ops))
    have hrest := ih (stepOp t op).1 hstep.1
      (fun o ho => hops o (List.mem_cons_of_mem op ho))
    rw [runOps_cons]
    refine ⟨hrest.1, ?_⟩
    intro ev hev
    rcases List.mem_append.mp hev with h | h
    · exact hstep.2 ev h
    · exact hrest.2 ev h

/-!
## The claims
-/

/-- C9: co_await on a response completes without suspending if and
only if the response state is not `InProgress`, i.e. is one of the
terminal states `None`, `Complete`, `Error`; `await_ready` is exactly
the predicate `data_state != CACHERS_STATE_IN_PROGRESS`. -/
theorem C9_await_ready_iff_not_in_progress (r : cachers_response) :
    (await_ready r = true ↔ r.data_state ≠ cachers_state.in_progress) ∧
    (await_ready r = true ↔ terminal r.data_state = true) ∧
    (await_ready r = true ↔
      (r.data_state = cachers_state.none ∨ r.data_state = cachers_state.complete ∨
        r.data_state = cachers_state.error)) := by
  cases hr : r.data_state <;> simp [await_ready, terminal, hr]

/-- C10: the `std::string_view` overload of `database::get` returns
the same result as the `key_view` overload applied to the identical
byte sequence — it is a pure reinterpretation of the same bytes that
delegates to the span overload. -/
theorem C10_string_get_delegates (backend : List Nat → backend_answer) (fresh : Nat)
    (key : List Char) :
    database_get_string backend fresh key =
      database_get backend fresh (key.map Char.toNat) := rfl

/-- C3: a `get_or_bind` call on an already-terminal token returns
Delivered (the `HasData` signal) together with the current Response,
leaves the token — in particular its continuation list — unchanged,
and the supplied callback is never invoked separately: the bind step
emits only the Delivered event, and any later `resolve` on the token
performs no invocations at all. -/
theorem C3_terminal_get_or_bind_delivers (t : token_state) (cb : Nat)
    (h : t.resolved = true) :
    cachers_response_get_or_bind (some t) (some cb) =
      (cachers_err.has_data, some t, some t.response) ∧
    stepOp t (Op.bind cb) = (t, [Event.delivered cb t.response]) ∧
    (∀ r, resolve t r = (cachers_err.has_data, t, [])) :=
  ⟨get_or_bind_resolved t cb h, stepOp_bind_resolved t cb h,
   fun r => resolve_resolved t r h⟩

/-- Witness for C3 at a concrete resolved token. -/
theorem C3_witness :
    cachers_response_get_or_bind (some ⟨true, mkNone, [], 1⟩) (some 7) =
      (cachers_err.has_data, some ⟨true, mkNone, [], 1⟩, some mkNone) :=
  (C3_terminal_get_or_bind_delivers ⟨true, mkNone, [], 1⟩ 7 rfl).1

/-- C7: once a token is terminal, repeated reads are idempotent: a
`get_or_bind` read returns the stored Response snapshot and leaves
the token unchanged, a second read through the returned token yields
the byte-identical snapshot, and `peek` returns the same snapshot. -/
theorem C7_idempotent_terminal_reads (t : token_state) (cb cb2 : Nat)
    (h : t.resolved = true) :
    cachers_response_get_or_bind (some t) (some cb) =
      (cachers_err.has_data, some t, some t.response) ∧
    cachers_response_get_or_bind
        (cachers_response_get_or_bind (some t) (some cb)).2.1 (some cb2) =
      (cachers_err.has_data, some t, some t.response) ∧
    peek t = t.response := by
  have h1 := get_or_bind_resolved t cb h
  refine ⟨h1, ?_, rfl⟩
  rw [h1]
  exact get_or_bind_resolved t cb2 h

/-- Witness for C7 at a concrete resolved token. -/
theorem C7_witness :
    cachers_response_get_or_bind
        (cachers_response_get_or_bind (some ⟨true, mkNone, [], 1⟩) (some 3)).2.1
        (some 4) =
      (cachers_err.has_data, some ⟨true, mkNone, [], 1⟩, some mkNone) :=
  (C7_idempotent_terminal_reads ⟨true, mkNone, [], 1⟩ 3 4 rfl).2.1

/-- C2: `resolve` succeeds at most once per token: on an unresolved
token it succeeds and stores the Response; a second `resolve` call is
rejected with the `HasData`/already-resolved fault, changes nothing,
invokes no callbacks, and the stored Response stays what the first
call stored. -/
theorem C2_resolve_at_most_once (t0 : token_state) (r r2 : cachers_response)
    (h0 : t0.resolved = false) (hr : terminal r.data_state = true) :
    (resolve t0 r).1 = cachers_err.ok ∧
    (resolve t0 r).2.1.response = r ∧
    resolve (resolve t0 r).2.1 r2 =
      (cachers_err.has_data, (resolve t0 r).2.1, []) ∧
    (resolve (resolve t0 r).2.1 r2).2.1.response = r := by
  rw [resolve_unresolved t0 r h0]
  refine ⟨rfl, rfl, ?_, ?_⟩ <;>
    rw [resolve_resolved _ r2 rfl]

/-- C1: no missed delivery.  For every interleaving of one `resolve`
call (with a terminal Response `r`) with any number of `get_or_bind`
calls on the same token — `cs1` the distinct consumers that bind
before the resolution, `cs2` those that bind after — every callback
that `get_or_bind` registered is invoked exactly once with the final
Response; every `get_or_bind` before resolution returns Registered
(never Delivered, never a fault) and is followed by exactly one
callback invocation; every `get_or_bind` after resolution returns
Delivered with the correct terminal Response and its callback never
fires; and the single `resolve` succeeds.  No call is left with
neither outcome. -/
theorem C1_no_missed_delivery (cs1 cs2 : List Nat) (r : cachers_response)
    (hr : terminal r.data_state = true) (hnd : (cs1 ++ cs2).Nodup) :
    (runOps token_create (cs1.map Op.bind ++ Op.resolveCall r :: cs2.map Op.bind)).1 =
      ⟨true, r, [], 1⟩ ∧
    (∀ cid ∈ cs1,
      (runOps token_create
        (cs1.map Op.bind ++ Op.resolveCall r :: cs2.map Op.bind)).2.count
          (Event.registered cid) = 1 ∧
      (runOps token_create
        (cs1.map Op.bind ++ Op.resolveCall r :: cs2.map Op.bind)).2.count
          (Event.invoked cid r) = 1 ∧
      (∀ x, Event.delivered cid x ∉
        (runOps token_create
          (cs1.map Op.bind ++ Op.resolveCall r :: cs2.map Op.bind)).2) ∧
      (∀ e, Event.bindFault cid e ∉
        (runOps token_create
          (cs1.map Op.bind ++ Op.resolveCall r :: cs2.map Op.bind)).2)) ∧
    (∀ cid ∈ cs2,
      (runOps token_create
        (cs1.map Op.bind ++ Op.resolveCall r :: cs2.map Op.bind)).2.count
          (Event.delivered cid r) = 1 ∧
      (runOps token_create
        (cs1.map Op.bind ++ Op.resolveCall r :: cs2.map Op.bind)).2.count
          (Event.registered cid) = 0 ∧
      (∀ x, Event.invoked cid x ∉
        (runOps token_create
          (cs1.map Op.bind ++ Op.resolveCall r :: cs2.map Op.bind)).2)) ∧
    (∀ e, Event.resolveFault e ∉
      (runOps token_create
        (cs1.map Op.bind ++ Op.resolveCall r :: cs2.map Op.bind)).2) := by
  have hch := runOps_interleaving cs1 cs2 r
  rw [hch]
  obtain ⟨h1, h2, hdisj⟩ := List.nodup_append.mp hnd
  have hinjR : Function.Injective Event.registered :=
    fun a b hab => Event.registered.inj hab
  have hinjI : Function.Injective (fun c => Event.invoked c r) :=
    fun a b hab => (Event.invoked.inj hab).1
  have hinjD : Function.Injective (fun c => Event.delivered c r) :=
    fun a b hab => (Event.delivered.inj hab).1
  refine ⟨rfl, ?_, ?_, ?_⟩
  · intro cid hcid
    refine ⟨?_, ?_, ?_, ?_⟩
    · rw [List.count_append, List.count_append]
      rw [List.count_map_of_injective cs1 Event.registered hinjR cid]
      rw [List.count_eq_one_of_mem h1 hcid]
      rw [List.count_eq_zero_of_not_mem (by
        intro hm
        obtain ⟨a, _, hae⟩ := List.mem_map.mp hm
        exact Event.noConfusion hae)]
      rw [List.count_eq_zero_of_not_mem (by
        intro hm
        obtain ⟨a, _, hae⟩ := List.mem_map.mp hm
        exact Event.noConfusion hae)]
    · rw [List.count_append, List.count_append]
      rw [List.count_map_of_injective cs1 (fun c => Event.invoked c r) hinjI cid]
      rw [List.count_eq_one_of_mem h1 hcid]
      rw [List.count_eq_zero_of_not_mem (by
        intro hm
        obtain ⟨a, _, hae⟩ := List.mem_map.mp hm
        exact Event.noConfusion hae)]
      rw [List.count_eq_zero_of_not_mem (by
        intro hm
        obtain ⟨a, _, hae⟩ := List.mem_map.mp hm
        exact Event.noConfusion hae)]
    · intro x hx
      rcases List.mem_append.mp hx with hm | hm
      · obtain ⟨a, _, hae⟩ := List.mem_map.mp hm
        exact Event.noConfusion hae
      rcases List.mem_append.mp hm with hm2 | hm2
      · obtain ⟨a, _, hae⟩ := List.mem_map.mp hm2
        exact Event.noConfusion hae
      · obtain ⟨a, ha, hae⟩ := List.mem_map.mp hm2
        obtain ⟨hac, _⟩ := Event.delivered.inj hae
        subst hac
        exact hdisj hcid ha
    · intro e hx
      rcases List.mem_append.mp hx with hm | hm
      · obtain ⟨a, _, hae⟩ := List.mem_map.mp hm
        exact Event.noConfusion hae
      rcases List.mem_append.mp hm with hm2 | hm2
      · obtain ⟨a, _, hae⟩ := List.mem_map.mp hm2
        exact Event.noConfusion hae
      · obtain ⟨a, _, hae⟩ := List.mem_map.mp hm2
        exact Event.noConfusion hae
  · intro cid hcid
    refine ⟨?_, ?_, ?_⟩
    · rw [List.count_append, List.count_append]
      rw [List.count_map_of_injective cs2 (fun c => Event.delivered c r) hinjD cid]
      rw [List.count_eq_one_of_mem h2 hcid]
      rw [List.count_eq_zero_of_not_mem (by
        intro hm
        obtain ⟨a, _, hae⟩ := List.mem_map.mp hm
        exact Event.noConfusion hae)]
      rw [List.count_eq_zero_of_not_mem (by
        intro hm
        obtain ⟨a, _, hae⟩ := List.mem_map.mp hm
        exact Event.noConfusion hae)]
    · rw [List.count_append, List.count_append]
      rw [List.count_eq_zero_of_not_mem (by
        intro hm
        obtain ⟨a, ha, hae⟩ := List.mem_map.mp hm
        have hac := hinjR hae
        subst hac
        exact hdisj ha hcid)]
      rw [List.count_eq_zero_of_not_mem (by
        intro hm
        obtain ⟨a, _, hae⟩ := List.mem_map.mp hm
        exact Event.noConfusion hae)]
      rw [List.count_eq_zero_of_not_mem (by
        intro hm
        obtain ⟨a, _, hae⟩ := List.mem_map.mp hm
        exact Event.noConfusion hae)]
    · intro x hx
      rcases List.mem_append.mp hx with hm | hm
      · obtain ⟨a, _, hae⟩ := List.mem_map.mp hm
        exact Event.noConfusion hae
      rcases List.mem_append.mp hm with hm2 | hm2
      · obtain ⟨a, ha, hae⟩ := List.mem_map.mp hm2
        obtain ⟨hac, _⟩ := Event.invoked.inj hae
        subst hac
        exact hdisj ha hcid
      · obtain ⟨a, _, hae⟩ := List.mem_map.mp hm2
        exact Event.noConfusion hae
  · intro e hx
    rcases List.mem_append.mp hx with hm | hm
    · obtain ⟨a, _, hae⟩ := List.mem_map.mp hm
      exact Event.noConfusion hae
    rcases List.mem_append.mp hm with hm2 | hm2
    · obtain ⟨a, _, hae⟩ := List.mem_map.mp hm2
      exact Event.noConfusion hae
    · obtain ⟨a, _, hae⟩ := List.mem_map.mp hm2
      exact Event.noConfusion hae

/-- Witness for C1: consumer 1 binds before a `None` resolution,
consumer 2 binds after it. -/
theorem C1_witness :
    (runOps token_create
      ([1].map Op.bind ++ Op.resolveCall mkNone :: [2].map Op.bind)).1 =
      ⟨true, mkNone, [], 1⟩ ∧
    (runOps token_create
      ([1].map Op.bind ++ Op.resolveCall mkNone :: [2].map Op.bind)).2.count
        (Event.invoked 1 mkNone) = 1 :=
  ⟨(C1_no_missed_delivery [1] [2] mkNone (by decide) (by decide)).1,
   ((C1_no_missed_delivery [1] [2] mkNone (by decide) (by decide)).2.1 1
     (by decide)).2.1⟩

/-- C5: the state-to-fields correspondence of §3 holds for every
Response the system produces or observes: it holds for each Response
the model constructs (`None`, `Complete`, `Error`, `InProgress`, and
the initial token slot), and it is preserved by every interleaving of
operations — the token's stored Response and every Response handed to
a consumer (Delivered or callback invocation) satisfy it, provided
the backend's `resolve` payloads do. -/
theorem C5_state_invariant (t : token_state) (ops : List Op)
    (ht : responseInvariant t.response) (hops : ∀ op ∈ ops, opRespOk op) :
    responseInvariant mkNone ∧
    (∀ hdr d, responseInvariant (mkComplete hdr d)) ∧
    (∀ e, e ≠ cachers_err.ok → responseInvariant (mkError e)) ∧
    (∀ tid, responseInvariant (mkInProgress tid)) ∧
    responseInvariant response_in_progress ∧
    responseInvariant (runOps t ops).1.response ∧
    (∀ ev ∈ (runOps t ops).2, eventRespOk ev) := by
  have hrun := runOps_respOk ops t ht hops
  refine ⟨?_, ?_, ?_, ?_, ?_, hrun.1, hrun.2⟩
  · decide
  · intro hdr d
    simp [mkComplete, responseInvariant]
  · intro e he
    simp [mkError, responseInvariant, he]
  · intro tid
    simp [mkInProgress, responseInvariant]
  · decide

/-- Witness for C5: a fresh token, one consumer registration, a
`Complete` resolution, one late read. -/
theorem C5_witness :
    responseInvariant
      (runOps token_create
        [Op.bind 1, Op.resolveCall (mkComplete Option.none [2]), Op.bind 3]).1.response :=
  (C5_state_invariant token_create
    [Op.bind 1, Op.resolveCall (mkComplete Option.none [2]), Op.bind 3]
    (by decide) (by decide)).2.2.2.2.2.1

/-- C6: the database façade's `get` returns a Response carrying a
token exactly when the backend must perform work, in which case the
Response has state `InProgress` and carries the freshly created
token; when the backend already has a final answer, `get` returns
that terminal Response with no token. -/
theorem C6_get_token_iff_pending (backend : List Nat → backend_answer)
    (fresh : Nat) (key : List Nat)
    (hwf : ∀ k r, backend k = backend_answer.final r →
      terminal r.data_state = true ∧ r.token = Option.none) :
    database_get backend fresh key = Except.ok (cachers_get backend fresh key).2 ∧
    ((cachers_get backend fresh key).2.token.isSome = true ↔
      backend key = backend_answer.pending) ∧
    (backend key = backend_answer.pending →
      (cachers_get backend fresh key).2 = mkInProgress fresh ∧
      (cachers_get backend fresh key).2.data_state = cachers_state.in_progress ∧
      (cachers_get backend fresh key).2.token = some fresh) ∧
    (∀ r, backend key = backend_answer.final r →
      (cachers_get backend fresh key).2 = r ∧ terminal r.data_state = true ∧
      r.token = Option.none) := by
  cases hb : backend key with
  | final r =>
    have hr := hwf key r hb
    refine ⟨by simp [database_get, cachers_get, hb], ?_, ?_, ?_⟩
    · simp [cachers_get, hb, hr.2]
    · intro hp
      cases hp
    · intro r2 h2
      cases h2
      exact ⟨by simp [cachers_get, hb], hr⟩
  | pending =>
    refine ⟨by simp [database_get, cachers_get, hb], ?_, ?_, ?_⟩
    · simp [cachers_get, hb, mkInProgress]
    · intro _
      exact ⟨by simp [cachers_get, hb], by simp [cachers_get, hb, mkInProgress],
        by simp [cachers_get, hb, mkInProgress]⟩
    · intro r2 h2
      cases h2

/-- Witness for C6 with an always-pending backend. -/
theorem C6_witness :
    ((cachers_get (fun _ => backend_answer.pending) 9 [1]).2.token.isSome = true ↔
      (fun _ : List Nat => backend_answer.pending) [1] = backend_answer.pending) :=
  (C6_get_token_iff_pending (fun _ => backend_answer.pending) 9 [1]
    (fun _ _ h => nomatch h)).2.1

/-- C4: a consumer calling `get_or_bind` observes exactly one of
three outcomes and the awaiter always resumes: on a resolved token
the call Delivers the Response synchronously and the awaiter resumes
immediately; on an unresolved token the call Registers, the awaiter
stays suspended, and the single `resolve` later invokes the
registered callback exactly once (never zero, never twice) with the
final Response; a null token or null callback yields a synchronous
`InvalidArgument` fault. -/
theorem C4_no_silence_no_double_callback (tok : token_state) (cb : Nat)
    (r impl : cachers_response)
    (hr : terminal r.data_state = true) (hcb : cb ∉ tok.continuations) :
    (tok.resolved = true →
      cachers_response_get_or_bind (some tok) (some cb) =
        (cachers_err.has_data, some tok, some tok.response) ∧
      await_suspend (some tok) cb impl = (some tok, tok.response, true)) ∧
    (tok.resolved = false →
      cachers_response_get_or_bind (some tok) (some cb) =
        (cachers_err.ok,
         some { tok with continuations := tok.continuations ++ [cb] },
         Option.none) ∧
      await_suspend (some tok) cb impl =
        (some { tok with continuations := tok.continuations ++ [cb] }, impl, false) ∧
      ((resolve { tok with continuations := tok.continuations ++ [cb] } r).2.2.map
          Prod.fst).count cb = 1 ∧
      (cb, r) ∈ (resolve { tok with continuations := tok.continuations ++ [cb] } r).2.2) ∧
    cachers_response_get_or_bind Option.none (some cb) =
      (cachers_err.invalid_argument, Option.none, Option.none) ∧
    cachers_response_get_or_bind (some tok) Option.none =
      (cachers_err.invalid_argument, some tok, Option.none) := by
  refine ⟨?_, ?_, rfl, rfl⟩
  · intro h
    exact ⟨get_or_bind_resolved tok cb h,
      by simp [await_suspend, get_or_bind_resolved tok cb h]⟩
  · intro h
    refine ⟨get_or_bind_unresolved tok cb h,
      by simp [await_suspend, get_or_bind_unresolved tok cb h], ?_, ?_⟩
    · rw [resolve_unresolved { tok with continuations := tok.continuations ++ [cb] } r h]
      simp only [List.map_map]
      have hmap : ((tok.continuations ++ [cb]).map ((fun p => p.1) ∘ fun c => (c, r)))
          = tok.continuations ++ [cb] := by
        induction tok.continuations with
        | nil => simp
        | cons x xs ih => simpa using ih
      rw [hmap, List.count_append]
      rw [List.count_eq_zero_of_not_mem hcb]
      simp
    · rw [resolve_unresolved { tok with continuations := tok.continuations ++ [cb] } r h]
      simp

/-- Witness for C4 at a fresh token with callback 5 and the `None`
resolution. -/
theorem C4_witness :
    cachers_response_get_or_bind (some token_create) (some 5) =
      (cachers_err.ok,
       some { token_create with continuations := token_create.continuations ++ [5] },
       Option.none) :=
  ((C4_no_silence_no_double_callback token_create 5 mkNone response_in_progress
    (by decide) (by decide)).2.1 rfl).1

/-- Witness for C2 at a fresh token resolved with the `None`
response, then resolved again with a `Complete` response. -/
theorem C2_witness :
    (resolve token_create mkNone).1 = cachers_err.ok ∧
    (resolve token_create mkNone).2.1.response = mkNone ∧
    resolve (resolve token_create mkNone).2.1 (mkComplete Option.none [1]) =
      (cachers_err.has_data, (resolve token_create mkNone).2.1, []) ∧
    (resolve (resolve token_create mkNone).2.1
        (mkComplete Option.none [1])).2.1.response = mkNone :=
  C2_resolve_at_most_once token_create mkNone (mkComplete Option.none [1]) rfl
    (by decide)

/-- C8: `FDestroyHandle` is invoked at most once per acquired raw
pointer across any sequence of `unique_handle` operations whose
acquisitions are distinct; move construction and move assignment
transfer ownership by nulling the source handle; `release`
relinquishes without destroying; `reset` destroys only a non-null
held pointer.  This is what lets a `response` release its token, and
a `database` its backend handle, at most once. -/
theorem C8_unique_handle_destroy_at_most_once (ops : List HOp) (s : HandleHeap)
    (i j : Nat) (hnd : (acquiredPtrs ops).Nodup)
    (hi : i < s.handles.length) (hj : j < s.handles.length) :
    (∀ p, (runH ⟨[], []⟩ ops).destroyed.count p ≤ 1) ∧
    (stepH s (HOp.moveCtor i)).destroyed = s.destroyed ∧
    getHandle (stepH s (HOp.moveCtor i)) i = ⟨Option.none⟩ ∧
    getHandle (stepH s (HOp.moveCtor i)) s.handles.length = getHandle s i ∧
    (stepH s (HOp.moveAssign i j)).destroyed =
      s.destroyed ++ (getHandle s i).handle.toList ∧
    getHandle (stepH s (HOp.moveAssign i j)) j = ⟨Option.none⟩ ∧
    (stepH s (HOp.release i)).destroyed = s.destroyed ∧
    ((getHandle s i).handle = Option.none →
      stepH s (HOp.reset i) = { s with handles := s.handles.set i ⟨Option.none⟩ }) ∧
    (∀ p, (getHandle s i).handle = some p →
      (stepH s (HOp.reset i)).destroyed = s.destroyed ++ [p]) := by
  refine ⟨?_, rfl, ?_, ?_, ?_, ?_, rfl, ?_, ?_⟩
  · intro p
    have hb := runH_sum_le ops ⟨[], []⟩ (fun q => by
      simpa [heldCount] using List.nodup_iff_count_le_one.mp hnd q) p
    omega
  · show ((s.handles.set i ⟨Option.none⟩) ++ [getHandle s i]).getD i ⟨Option.none⟩ =
      ⟨Option.none⟩
    rw [getD_append_left _ _ i _ (by simpa using hi)]
    exact getD_set_self s.handles i _ _ hi
  · show ((s.handles.set i ⟨Option.none⟩) ++ [getHandle s i]).getD s.handles.length
        ⟨Option.none⟩ = getHandle s i
    have hlen : (s.handles.set i ⟨Option.none⟩).length = s.handles.length := by simp
    rw [← hlen]
    exact getD_append_length _ _ _
  · show (heapReset s i).destroyed = s.destroyed ++ (getHandle s i).handle.toList
    exact heapReset_destroyed s i
  · show (((heapReset s i).handles.set j ⟨Option.none⟩).set i
        (getHandle (heapReset s i) j)).getD j ⟨Option.none⟩ = ⟨Option.none⟩
    rw [heapReset_handles]
    by_cases hij : i = j
    · subst hij
      rw [getD_set_self _ i _ _ (by simpa using hi)]
      rw [getHandle_eq, heapReset_handles]
      exact getD_set_self s.handles i _ _ hi
    · rw [getD_set_ne _ i j _ _ hij]
      exact getD_set_self _ j _ _ (by simpa using hj)
  · intro hh
    show heapReset s i = _
    unfold heapReset
    rw [hh]
  · intro p hh
    show (heapReset s i).destroyed = s.destroyed ++ [p]
    rw [heapReset_destroyed, hh]
    rfl

/-- Witness for C8: one acquisition, a move construction, and a
reset of the moved-to handle; plus a concrete two-handle heap for
the move-construction source-nulling fact. -/
theorem C8_witness :
    (runH ⟨[], []⟩ [HOp.acquire 5, HOp.moveCtor 0, HOp.reset 1]).destroyed.count 5 ≤ 1 ∧
    getHandle (stepH ⟨[⟨some 3⟩, ⟨some 4⟩], []⟩ (HOp.moveCtor 0)) 0 = ⟨Option.none⟩ :=
  ⟨(C8_unique_handle_destroy_at_most_once [HOp.acquire 5, HOp.moveCtor 0, HOp.reset 1]
      ⟨[⟨some 3⟩, ⟨some 4⟩], []⟩ 0 1 (by decide) (by decide) (by decide)).1 5,
   (C8_unique_handle_destroy_at_most_once [HOp.acquire 5, HOp.moveCtor 0, HOp.reset 1]
      ⟨[⟨some 3⟩, ⟨some 4⟩], []⟩ 0 1 (by decide) (by decide) (by decide)).2.2.1⟩

end Cachers
